import Mathlib

/-!
Shallow embedding of the AdaptiveLearn360 core heuristics
(content prioritizer, session grouper, sequencer, study-mix generator,
adaptive scheduler), translated function by function from the
JavaScript source. JS numbers are modelled as Nat, Int or Rat as
appropriate; JS falsiness of absent fields is modelled with Option,
and the falsiness of the number 0 is handled explicitly where the
source applies `||` to a numeric field. Wall-clock reads are made
explicit `now` parameters, per the determinism note in the spec.
-/

/-- A content item. Fields set by the prioritizer (`priorityScore`,
`priority`) are modelled as total fields that the pipeline overwrites;
optional JS fields are `Option`. Timestamps are milliseconds as `Int`. -/
structure ContentItem where
  id : Nat := 0
  subject : Option String := none
  difficulty : Int := 0
  dueDate : Option Int := none
  estimatedDuration : Option Nat := none
  previouslyStruggled : Bool := false
  lastStudied : Option Int := none
  dependsOn : Option (List Nat) := none
  priorityScore : Int := 0
  priority : String := ""
  category : Option String := none
deriving DecidableEq, Repr

/-- A grouper session, as built by `groupContentIntoSessions`. -/
structure Session where
  items : List ContentItem
  estimatedDuration : Nat
  priority : String
deriving DecidableEq, Repr

/-- JS `item.estimatedDuration || 10`: the default applies when the field
is absent and also when it is 0 (falsy). -/
def jsDuration (it : ContentItem) : Nat :=
  match it.estimatedDuration with
  | none => 10
  | some 0 => 10
  | some d => d

/-- Sum of the (defaulted) durations of a list of items. -/
def sumDur (items : List ContentItem) : Nat :=
  (items.map jsDuration).sum

/-- Helper `getPriorityValue`: the JS lookup table with `|| 0` for
unknown labels (and for the label "optional", whose value is 0). -/
def getPriorityValue (p : String) : Nat :=
  if p = "critical" then 4
  else if p = "high" then 3
  else if p = "medium" then 2
  else if p = "low" then 1
  else 0

/-- The `reduce` inside `groupContentIntoSessions` that selects the label
of the highest-priority item, seeded with an object whose priority is
"low"; only strictly greater values replace the accumulator. -/
def sessionPriority (items : List ContentItem) : String :=
  items.foldl
    (fun best it =>
      if getPriorityValue it.priority > getPriorityValue best then it.priority else best)
    "low"

/-- One iteration of the `forEach` in `groupContentIntoSessions`: close the
current session when adding the item would push it past the target and it
already holds an item, then add the item to the (possibly fresh) session. -/
def groupStep (sessionDuration : Nat) (st : List Session × Session) (item : ContentItem) :
    List Session × Session :=
  let sessions := st.1
  let currentSession := st.2
  let itemDuration := jsDuration item
  if currentSession.estimatedDuration + itemDuration > sessionDuration
      ∧ currentSession.items.length > 0 then
    (sessions ++ [{ currentSession with priority := sessionPriority currentSession.items }],
     { items := [item], estimatedDuration := itemDuration, priority := "medium" })
  else
    (sessions,
     { currentSession with
        items := currentSession.items ++ [item],
        estimatedDuration := currentSession.estimatedDuration + itemDuration })

/-- `groupContentIntoSessions(prioritizedItems, sessionDuration = 25)`. -/
def groupContentIntoSessions (prioritizedItems : List ContentItem) (sessionDuration : Nat) :
    List Session :=
  if prioritizedItems.length = 0 then []
  else
    let r := prioritizedItems.foldl (groupStep sessionDuration)
      ([], { items := [], estimatedDuration := 0, priority := "medium" })
    if r.2.items.length > 0 then
      r.1 ++ [{ r.2 with priority := sessionPriority r.2.items }]
    else r.1

/-- A session that respects the duration bound, or consists of a single
item whose duration alone exceeds the target. -/
def GoodSession (target : Nat) (s : Session) : Prop :=
  sumDur s.items ≤ target ∨ ∃ x, s.items = [x] ∧ target < jsDuration x

/-- Invariant carried through the grouper fold: closed sessions are good
and carry the label computed by `sessionPriority`, and the open session
tracks its duration sum and respects the bound unless it is a singleton. -/
def GroupInv (target : Nat) (st : List Session × Session) : Prop :=
  (∀ s ∈ st.1, GoodSession target s ∧ s.priority = sessionPriority s.items)
  ∧ st.2.estimatedDuration = sumDur st.2.items
  ∧ (st.2.items.length ≤ 1 ∨ st.2.estimatedDuration ≤ target)

/-- Item of a demo list with duration 15. -/
def demoItem15 : ContentItem := { estimatedDuration := some 15 }

/-- The demo input from the spec: three items of duration 15. -/
def demoItems151515 : List ContentItem := [demoItem15, demoItem15, demoItem15]

/-- A single item carrying the label "optional" (priority value 0). -/
def itemOptional : ContentItem := { priority := "optional", estimatedDuration := some 15 }

/-- A single item carrying the label "high" (priority value 3). -/
def itemHigh : ContentItem := { priority := "high", estimatedDuration := some 15 }

/-- One step of the `sessionPriority` fold, named for reasoning. -/
def bestStep (best : String) (it : ContentItem) : String :=
  if getPriorityValue it.priority > getPriorityValue best then it.priority else best

/-- User performance record (only the fields the core reads). -/
structure UserPerformance where
  averageScore : Option Nat := none
  weakAreas : Option (List String) := none
  strongAreas : Option (List String) := none
deriving DecidableEq, Repr

/-- JS `o || d` on an optional numeric field: absent or 0 gives the default. -/
def jsOrNat (o : Option Nat) (d : Nat) : Nat :=
  match o with
  | none => d
  | some 0 => d
  | some n => n

/-- JS `performance?.weakAreas || []`. -/
def weakAreasOf (performance : Option UserPerformance) : List String :=
  (performance.bind UserPerformance.weakAreas).getD []

/-- JS `performance?.strongAreas || []`. -/
def strongAreasOf (performance : Option UserPerformance) : List String :=
  (performance.bind UserPerformance.strongAreas).getD []

/-- JS `areas.includes(item.subject)`; an absent subject matches nothing. -/
def subjectIn (areas : List String) (it : ContentItem) : Bool :=
  match it.subject with
  | some s => areas.contains s
  | none => false

/-- The percentage triple (weak, strong, new) chosen by
`generateBalancedStudyMix` from the performance data. -/
def mixPercentages (performance : Option UserPerformance) : Nat × Nat × Nat :=
  match performance with
  | none => (60, 20, 20)
  | some p =>
    let avgScore := jsOrNat p.averageScore 70
    if avgScore < 60 then (70, 15, 15)
    else if avgScore > 85 then (40, 20, 40)
    else (60, 20, 20)

/-- JS `Math.round(t * (pct / 100))` as exact half-up rounding. For every
total reachable here (t at most 10) and percentage in 15, 20, 40, 60, 70,
the double-precision computation agrees with exact rational rounding
(the only half-way cases, t = 10 with pct = 15 and t = 5 with pct = 70,
both evaluate to exact .5 values in floating point and round up). -/
def roundPct (t pct : Nat) : Nat := (t * pct + 50) / 100

/-- The per-bucket target counts computed by `generateBalancedStudyMix`
before shortfall redistribution. -/
def mixTargets (contentItems : List ContentItem) (performance : Option UserPerformance) :
    Nat × Nat × Nat :=
  let ps := mixPercentages performance
  let totalItems := min contentItems.length 10
  (roundPct totalItems ps.1, roundPct totalItems ps.2.1, roundPct totalItems ps.2.2)

/-- `generateBalancedStudyMix(contentItems, performance)`. -/
def generateBalancedStudyMix (contentItems : List ContentItem)
    (performance : Option UserPerformance) : List ContentItem :=
  if contentItems.length = 0 then []
  else
    let weakAreas := weakAreasOf performance
    let strongAreas := strongAreasOf performance
    let weakAreaItems := contentItems.filter (subjectIn weakAreas)
    let strongAreaItems := contentItems.filter (subjectIn strongAreas)
    let newContentItems :=
      contentItems.filter (fun it => !(subjectIn weakAreas it) && !(subjectIn strongAreas it))
    let t := mixTargets contentItems performance
    let weakCount := t.1
    let strongCount := t.2.1
    let newCount0 := t.2.2
    let newCount1 :=
      if weakAreaItems.length < weakCount then newCount0 + (weakCount - weakAreaItems.length)
      else newCount0
    let newCount :=
      if strongAreaItems.length < strongCount then newCount1 + (strongCount - strongAreaItems.length)
      else newCount1
    let selectedWeak := weakAreaItems.take (min weakCount weakAreaItems.length)
    let selectedStrong := strongAreaItems.take (min strongCount strongAreaItems.length)
    let selectedNew := newContentItems.take (min newCount newContentItems.length)
    selectedWeak.map (fun it => { it with category := some "weak-area" })
      ++ selectedStrong.map (fun it => { it with category := some "strong-area" })
      ++ selectedNew.map (fun it => { it with category := some "new-content" })

/-- Performance record with averageScore 50 used in concrete checks. -/
def mixPerf50 : UserPerformance :=
  { averageScore := some 50, weakAreas := some ["w"], strongAreas := some ["s"] }

/-- Performance record with averageScore 0 used in concrete checks. -/
def mixPerf0 : UserPerformance :=
  { averageScore := some 0, weakAreas := some ["w"], strongAreas := some ["s"] }

/-- An item in the weak subject "w". -/
def wItem : ContentItem := { subject := some "w" }

/-- An item in the strong subject "s". -/
def sItem : ContentItem := { subject := some "s" }

/-- An item in the fresh subject "n". -/
def nItem : ContentItem := { subject := some "n" }

/-- Eleven items: seven weak, two strong, two new. -/
def mix11Items : List ContentItem :=
  List.replicate 7 wItem ++ List.replicate 2 sItem ++ List.replicate 2 nItem

/-- Ten items, all in the weak subject. -/
def mixTenItems : List ContentItem := List.replicate 10 wItem

/-- User habits record (only the fields the core reads). Affinity and
consistency scores are rationals, mirroring the fractional JS values. -/
structure UserHabits where
  preferredStudyTime : Option (List (String × Rat)) := none
  consistencyScore : Option Rat := none
deriving DecidableEq, Repr

/-- User preferences recognised by the scheduler. -/
structure UserPreferences where
  studyDuration : Option Nat := none
  breakDuration : Option Nat := none
deriving DecidableEq, Repr

/-- The user data shape passed to the core. -/
structure UserData where
  performance : Option UserPerformance := none
  habits : Option UserHabits := none
  preferences : Option UserPreferences := none
deriving DecidableEq, Repr

/-- Milliseconds in a day, the divisor of the due-date urgency check. -/
def msPerDay : Int := 86400000

/-- The per-item enrichment performed by `prioritizeContent`: the six
score factors followed by the tier mapping. The JS comparisons on
fractional days until due are scaled to milliseconds (the divisor is
positive, so the scaled comparisons are equivalent). -/
def enrichItem (weakAreas strongAreas : List String) (now : Int) (item : ContentItem) :
    ContentItem :=
  let s1 : Int := 5
  let s2 := if subjectIn weakAreas item then s1 + 3 else s1
  let s3 := if subjectIn strongAreas item then s2 - 2 else s2
  let s4 := s3 + min 2 (max 0 (item.difficulty - 3))
  let s5 :=
    match item.dueDate with
    | none => s4
    | some due =>
      let msUntilDue := max 0 (due - now)
      if msUntilDue < msPerDay then s4 + 3
      else if msUntilDue < 3 * msPerDay then s4 + 2
      else if msUntilDue < 7 * msPerDay then s4 + 1
      else s4
  let s6 := if item.previouslyStruggled then s5 + 2 else s5
  let s7 := if item.lastStudied = none then s6 + 1 else s6
  let tier :=
    if s7 ≥ 10 then "critical"
    else if s7 ≥ 8 then "high"
    else if s7 ≥ 5 then "medium"
    else if s7 ≥ 3 then "low"
    else "optional"
  { item with priorityScore := s7, priority := tier }

/-- Descending priority-score preorder realised by the JS comparator
(a, b) => b.priorityScore - a.priorityScore under a stable sort. -/
def scoreGe (a b : ContentItem) : Prop := b.priorityScore ≤ a.priorityScore

instance : DecidableRel scoreGe :=
  fun a b => inferInstanceAs (Decidable (b.priorityScore ≤ a.priorityScore))

instance : IsTotal ContentItem scoreGe :=
  ⟨fun a b => le_total b.priorityScore a.priorityScore⟩

instance : IsTrans ContentItem scoreGe :=
  ⟨fun _ _ _ h1 h2 => le_trans h2 h1⟩

/-- `prioritizeContent(contentItems, userData)` with an explicit clock.
JS sorts in place with a stable sort; insertion sort realises the same
stable descending order. -/
def prioritizeContent (contentItems : List ContentItem) (userData : Option UserData)
    (now : Int) : List ContentItem :=
  match userData with
  | none => []
  | some ud =>
    if contentItems.length = 0 then []
    else
      let weakAreas := weakAreasOf ud.performance
      let strongAreas := strongAreasOf ud.performance
      (contentItems.map (enrichItem weakAreas strongAreas now)).insertionSort scoreGe

/-- Abstract calendar timestamp: a day index and an hour, standing in for
a JS Date whose minutes and seconds are zeroed; ordered lexicographically. -/
structure CalDate where
  day : Int
  hour : Nat
deriving DecidableEq, Repr

/-- Strict order on timestamps, as the JS Date comparison. -/
def CalDate.lt (a b : CalDate) : Prop :=
  a.day < b.day ∨ (a.day = b.day ∧ a.hour < b.hour)

instance : DecidableRel CalDate.lt :=
  fun a b => inferInstanceAs (Decidable (a.day < b.day ∨ (a.day = b.day ∧ a.hour < b.hour)))

/-- A scheduled study session produced by the scheduler. -/
structure StudySession where
  date : CalDate
  items : List ContentItem
  duration : Int
  breakDuration : Nat
  completed : Bool
deriving DecidableEq, Repr

/-- JS `Math.round`: half-up rounding toward positive infinity. -/
def jsRound (q : Rat) : Int := ⌊q + 1 / 2⌋

/-- The fixed hour windows of `getBestStudyHours`; unmapped periods give
none, modelling the undefined lookup. -/
def defaultHours (period : String) : Option (Nat × Nat) :=
  if period = "morning" then some (9, 11)
  else if period = "afternoon" then some (14, 16)
  else if period = "evening" then some (19, 21)
  else none

/-- The best-period fold shared by `getBestStudyHours` and
`calculateBestLearningTime`: the highest strictly positive score wins,
ties keep the earlier entry, seed "evening" with score 0. -/
def bestPeriod (preferredStudyTime : List (String × Rat)) : String :=
  (preferredStudyTime.foldl
    (fun acc e => if e.2 > acc.2 then e else acc) ("evening", (0 : Rat))).1

/-- `getBestStudyHours` of the scheduler (its dayOfWeek argument is
unused in the source). The destructuring of an undefined lookup result
is the single throwing site of the scheduler. -/
def getBestStudyHours (habits : Option UserHabits) : Option (Nat × Nat) :=
  let preferredTime := (habits.bind UserHabits.preferredStudyTime).getD []
  defaultHours (bestPeriod preferredTime)

/-- The content preorder of the scheduler sort: weak-area membership
first, then descending difficulty, as induced by the JS comparator under
a stable sort. -/
def schedLe (weakAreas : List String) (a b : ContentItem) : Prop :=
  if subjectIn weakAreas a = subjectIn weakAreas b then b.difficulty ≤ a.difficulty
  else subjectIn weakAreas a = true

instance (weakAreas : List String) : DecidableRel (schedLe weakAreas) :=
  fun a b => by unfold schedLe; infer_instance

/-- JS `habits?.consistencyScore || 0.5`. -/
def consistencyOf (habits : Option UserHabits) : Rat :=
  match habits.bind UserHabits.consistencyScore with
  | none => 1 / 2
  | some c => if c = 0 then 1 / 2 else c

/-- `itemsPerDay = max(1, min(3, ceil(count / (days * consistency))))`.
When days = 0 the JS division of a positive count yields Infinity, which
the min clamps to 3. -/
def itemsPerDayOf (count days : Nat) (c : Rat) : Nat :=
  if days = 0 then 3
  else (max 1 (min 3 ⌈(count : Rat) / (days * c)⌉)).toNat

/-- Placeholder item for the (unreachable) out-of-range list access. -/
def dummyItem : ContentItem := {}

/-- One day of the scheduler loop: pick itemsPerDay items cyclically,
fix the session clock to the start hour of the best window, and adjust
the base duration by difficulty and performance factors (exact rational
arithmetic in place of double precision). -/
def scheduleDay (sorted : List ContentItem) (itemsPerDay : Nat) (startHour : Nat)
    (baseStudy baseBreak avgScore : Nat) (startDay : Int) (day : Nat) : StudySession :=
  let len := sorted.length
  let startIndex := (day * itemsPerDay) % len
  let dayItems := (List.range itemsPerDay).map (fun i => sorted.getD ((startIndex + i) % len) dummyItem)
  let difficultyFactor : Rat := ((dayItems.map (fun it => (it.difficulty : Rat))).sum) / dayItems.length
  let adjustedDuration := jsRound
    ((baseStudy : Rat) * (1 + (difficultyFactor - 3) * (1 / 10))
      * (1 + ((70 : Rat) - avgScore) * (5 / 1000)))
  { date := { day := startDay + day, hour := startHour },
    items := dayItems,
    duration := adjustedDuration,
    breakDuration := baseBreak,
    completed := false }

/-- `generateAdaptiveSchedule(userData, contentItems, startDate, daysToSchedule)`
with the start date abstracted to a day index. The result is an Except so
that the runtime error thrown by destructuring an undefined hour window is
observable; the throw happens inside the day loop, so zero days never
reach it. -/
def generateAdaptiveSchedule (userData : Option UserData) (contentItems : List ContentItem)
    (startDay : Int) (daysToSchedule : Nat) : Except String (List StudySession) :=
  match userData with
  | none => Except.ok []
  | some ud =>
    if contentItems.length = 0 then Except.ok []
    else
      let baseStudyDuration := jsOrNat (ud.preferences.bind UserPreferences.studyDuration) 25
      let baseBreakDuration := jsOrNat (ud.preferences.bind UserPreferences.breakDuration) 5
      let sortedContent := contentItems.insertionSort (schedLe (weakAreasOf ud.performance))
      let itemsPerDay := itemsPerDayOf sortedContent.length daysToSchedule (consistencyOf ud.habits)
      let avgScore := jsOrNat (ud.performance.bind UserPerformance.averageScore) 70
      match getBestStudyHours ud.habits with
      | some hw =>
        Except.ok ((List.range daysToSchedule).map
          (scheduleDay sortedContent itemsPerDay hw.1 baseStudyDuration baseBreakDuration
            avgScore startDay))
      | none =>
        if daysToSchedule = 0 then Except.ok []
        else Except.error "TypeError: defaultHours lookup is undefined"

/-- Performance feedback passed to `adjustScheduleBasedOnPerformance`. -/
structure PerformanceFeedback where
  completedItems : Option (List ContentItem) := none
  struggledItems : Option (List ContentItem) := none
  averageScore : Option Int := none
deriving DecidableEq, Repr

/-- First stage of `adjustScheduleBasedOnPerformance`: prepend up to two
struggled items to the first session strictly after now and add 10
minutes to its duration. -/
def struggledStep (schedule : List StudySession) (feedback : PerformanceFeedback)
    (now : CalDate) : List StudySession :=
  let reinforcementNeeded := feedback.struggledItems.getD []
  if reinforcementNeeded.length > 0 ∧ schedule.length > 0 then
    match schedule.findIdx? (fun s => decide (CalDate.lt now s.date)) with
    | none => schedule
    | some i =>
      schedule.modify
        (fun s =>
          { s with
              items := reinforcementNeeded.take 2 ++ s.items,
              duration := s.duration + 10 }) i
  else schedule

/-- Second stage: when the feedback score is truthy and over 85, shorten
every session except the one at index 0 by 5 minutes, floored at 15. -/
def scoreStep (feedback : PerformanceFeedback) (schedule : List StudySession) :
    List StudySession :=
  match feedback.averageScore with
  | none => schedule
  | some a =>
    if a = 0 then schedule
    else if a > 85 then
      match schedule with
      | [] => []
      | first :: rest =>
        first :: rest.map (fun s => { s with duration := max 15 (s.duration - 5) })
    else schedule

/-- `adjustScheduleBasedOnPerformance(currentSchedule, performanceFeedback)`
with an explicit clock; absent arguments pass the schedule through. -/
def adjustScheduleBasedOnPerformance (currentSchedule : Option (List StudySession))
    (performanceFeedback : Option PerformanceFeedback) (now : CalDate) :
    Option (List StudySession) :=
  match currentSchedule, performanceFeedback with
  | none, _ => none
  | some s, none => some s
  | some s, some fb => some (scoreStep fb (struggledStep s fb now))

/-- A user whose highest-scored period is the unmapped label "night". -/
def nightUser : UserData :=
  { habits := some { preferredStudyTime := some [("night", 1)] } }

/-- A user whose highest-scored period is the unmapped label "dawn". -/
def dawnUser : UserData :=
  { habits := some { preferredStudyTime := some [("dawn", 2)] } }

/-- A user with no habit data: the best period defaults to "evening". -/
def basicUser : UserData := {}

/-- A user whose highest-scored period is "morning". -/
def morningUser : UserData :=
  { habits := some { preferredStudyTime := some [("morning", 2), ("evening", 1)] } }

/-- A plain schedulable item. -/
def plainItem : ContentItem := { subject := some "math", difficulty := 3 }

/-- Two demo sessions and a demo schedule for the feedback adjustment. -/
def demoSession0 : StudySession :=
  { date := { day := 0, hour := 9 }, items := [plainItem], duration := 30,
    breakDuration := 5, completed := false }

/-- Second demo session, with a duration close to the 15-minute floor. -/
def demoSession1 : StudySession :=
  { date := { day := 1, hour := 9 }, items := [plainItem], duration := 17,
    breakDuration := 5, completed := false }

/-- Demo schedule of two sessions. -/
def demoSchedule : List StudySession := [demoSession0, demoSession1]

/-- Feedback with a score of 90 and no struggled items. -/
def feedback90 : PerformanceFeedback := { averageScore := some 90 }

/-- A clock after both demo sessions. -/
def lateNow : CalDate := { day := 5, hour := 0 }

/-- JS `item.subject || "general"`: absent and empty subjects default. -/
def jsSubject (it : ContentItem) : String :=
  match it.subject with
  | none => "general"
  | some "" => "general"
  | some s => s

/-- Append an item to its subject group; a fresh subject opens a new
group at the end, matching JS object key insertion order. -/
def addToGroups (groups : List (String × List ContentItem)) (key : String)
    (item : ContentItem) : List (String × List ContentItem) :=
  match groups with
  | [] => [(key, [item])]
  | g :: rest =>
    if g.1 = key then (g.1, g.2 ++ [item]) :: rest
    else g :: addToGroups rest key item

/-- The grouping reduce of `recommendContentSequence`. -/
def groupBySubject (items : List ContentItem) : List (String × List ContentItem) :=
  items.foldl (fun gs it => addToGroups gs (jsSubject it) it) []

/-- The JS comparator of the per-subject sort: pairwise dependency
detection, then ascending difficulty. -/
def seqCompare (a b : ContentItem) : Int :=
  if (a.dependsOn.getD []).contains b.id then 1
  else if (b.dependsOn.getD []).contains a.id then -1
  else a.difficulty - b.difficulty

/-- The preorder a stable sort induces from the comparator. -/
def seqLe (a b : ContentItem) : Prop := seqCompare a b ≤ 0

instance : DecidableRel seqLe :=
  fun a b => inferInstanceAs (Decidable (seqCompare a b ≤ 0))

/-- Maximum group length: the number of rounds of the interleaving loop. -/
def maxLen (gs : List (List ContentItem)) : Nat :=
  gs.foldr (fun g m => max g.length m) 0

/-- The round-robin interleaving loop of `recommendContentSequence`:
round i pushes the element at index i of every group long enough, in
group order; the loop body pushes exactly for rounds below the maximum
group length. -/
def roundRobin (gs : List (List ContentItem)) : List ContentItem :=
  (List.range (maxLen gs)).flatMap (fun i => gs.filterMap (fun g => g[i]?))

/-- `recommendContentSequence(contentItems)`: group by subject, sort each
group by the dependency-difficulty comparator (stable), then interleave
the groups round-robin in first-encounter order. -/
def recommendContentSequence (contentItems : List ContentItem) : List ContentItem :=
  if contentItems.length = 0 then []
  else
    roundRobin (((groupBySubject contentItems).map
      (fun p => (p.1, p.2.insertionSort seqLe))).map Prod.snd)

/-- Every item of a group carries the subject of its key. -/
def KeyedHomog (gps : List (String × List ContentItem)) : Prop :=
  ∀ p ∈ gps, ∀ x ∈ p.2, jsSubject x = p.1

/-- Drop the first element of every group, keeping the keys. -/
def tailGroups (gps : List (String × List ContentItem)) :
    List (String × List ContentItem) :=
  gps.map (fun p => (p.1, p.2.drop 1))

/-- Three items sharing the subject "m", in ascending difficulty. -/
def seqItemA : ContentItem := { id := 1, subject := some "m", difficulty := 1 }

/-- Second item of the shared subject "m". -/
def seqItemB : ContentItem := { id := 2, subject := some "m", difficulty := 2 }

/-- Third item of the shared subject "m". -/
def seqItemC : ContentItem := { id := 3, subject := some "m", difficulty := 3 }

theorem sumDur_nil : sumDur [] = 0 := rfl

theorem sumDur_append (l : List ContentItem) (x : ContentItem) :
    sumDur (l ++ [x]) = sumDur l + jsDuration x := by
  simp [sumDur]

theorem sumDur_singleton (x : ContentItem) : sumDur [x] = jsDuration x := by
  simp [sumDur]

theorem good_of_parts {target : Nat} (s : Session)
    (hEst : s.estimatedDuration = sumDur s.items)
    (hBound : s.items.length ≤ 1 ∨ s.estimatedDuration ≤ target)
    (hpos : 0 < s.items.length) : GoodSession target s := by
  rcases hBound with hlen | hle
  · have h1 : s.items.length = 1 := Nat.le_antisymm hlen hpos
    obtain ⟨x, hx⟩ := List.length_eq_one.mp h1
    by_cases hgt : target < jsDuration x
    · exact Or.inr ⟨x, hx, hgt⟩
    · left
      rw [hx, sumDur_singleton]
      omega
  · left
    rw [← hEst]
    exact hle

theorem groupFold_inv (target : Nat) :
    ∀ (items : List ContentItem) (st : List Session × Session),
      GroupInv target st → GroupInv target (items.foldl (groupStep target) st) := by
  intro items
  induction items with
  | nil => intro st h; exact h
  | cons it rest ih =>
    intro st h
    rw [List.foldl_cons]
    apply ih
    obtain ⟨hClosed, hEst, hBound⟩ := h
    unfold groupStep
    by_cases hcl : st.2.estimatedDuration + jsDuration it > target ∧ st.2.items.length > 0
    · rw [if_pos hcl]
      refine ⟨?_, by simp [sumDur_singleton], Or.inl (by simp)⟩
      intro s hs
      rcases List.mem_append.mp hs with h1 | h2
      · exact hClosed s h1
      · have hseq : s = { st.2 with priority := sessionPriority st.2.items } := by
          simpa using h2
        subst hseq
        exact ⟨good_of_parts _ hEst hBound hcl.2, rfl⟩
    · rw [if_neg hcl]
      refine ⟨hClosed, by simp [sumDur_append, hEst], ?_⟩
      by_cases h0 : st.2.items.length = 0
      · left; simp [h0]
      · right
        have : ¬ st.2.estimatedDuration + jsDuration it > target := by
          intro hgt; exact hcl ⟨hgt, Nat.pos_of_ne_zero h0⟩
        simpa using this

/-- Initial state of the grouper fold satisfies the invariant. -/
theorem groupInv_init (target : Nat) :
    GroupInv target ([], { items := [], estimatedDuration := 0, priority := "medium" }) := by
  refine ⟨by simp, rfl, Or.inl (by simp)⟩

/-- Every produced session is good and carries the fold-computed label. -/
theorem grouper_sessions_spec (items : List ContentItem) (target : Nat) (s : Session)
    (hs : s ∈ groupContentIntoSessions items target) :
    GoodSession target s ∧ s.priority = sessionPriority s.items := by
  unfold groupContentIntoSessions at hs
  by_cases h0 : items.length = 0
  · rw [if_pos h0] at hs; cases hs
  · rw [if_neg h0] at hs
    have hinv := groupFold_inv target items _ (groupInv_init target)
    set r := items.foldl (groupStep target)
      ([], { items := [], estimatedDuration := 0, priority := "medium" }) with hr
    obtain ⟨hClosed, hEst, hBound⟩ := hinv
    by_cases hc : r.2.items.length > 0
    · rw [if_pos hc] at hs
      rcases List.mem_append.mp hs with h1 | h2
      · exact hClosed s h1
      · have hseq : s = { r.2 with priority := sessionPriority r.2.items } := by simpa using h2
        subst hseq
        exact ⟨good_of_parts _ hEst hBound hc, rfl⟩
    · rw [if_neg hc] at hs
      exact hClosed s hs

/-- C1: in every session produced by `groupContentIntoSessions`, the sum
of item durations (defaulting to 10 when unset) never exceeds the target
duration, except when the session is a single first item whose duration
alone exceeds the target; and durations 15, 15, 15 with target 25 give
three sessions of sizes 1, 1, 1. -/
theorem grouper_duration_bound :
    (∀ (items : List ContentItem) (target : Nat) (s : Session),
        s ∈ groupContentIntoSessions items target →
        sumDur s.items ≤ target ∨ ∃ x, s.items = [x] ∧ target < jsDuration x)
    ∧ (groupContentIntoSessions demoItems151515 25).map (fun s => s.items.length) = [1, 1, 1] := by
  constructor
  · intro items target s hs
    exact (grouper_sessions_spec items target s hs).1
  · decide

/-- Witness for C1 at the demo input: the first produced session. -/
theorem grouper_duration_bound_witness :
    sumDur (Session.mk [demoItem15] 15 "low").items ≤ 25
      ∨ ∃ x, (Session.mk [demoItem15] 15 "low").items = [x] ∧ 25 < jsDuration x :=
  grouper_duration_bound.1 demoItems151515 25 _ (by decide)

theorem groupFold_flatten (target : Nat) :
    ∀ (items : List ContentItem) (st : List Session × Session),
      ((items.foldl (groupStep target) st).1.map Session.items).flatten
          ++ (items.foldl (groupStep target) st).2.items
        = (st.1.map Session.items).flatten ++ st.2.items ++ items := by
  intro items
  induction items with
  | nil => intro st; simp
  | cons it rest ih =>
    intro st
    rw [List.foldl_cons, ih]
    unfold groupStep
    by_cases hcl : st.2.estimatedDuration + jsDuration it > target ∧ st.2.items.length > 0
    · rw [if_pos hcl]
      simp [List.append_assoc]
    · rw [if_neg hcl]
      simp [List.append_assoc]

/-- C10: concatenating the items of the produced sessions, in order,
recovers exactly the input sequence (order-preserving partition). -/
theorem grouper_partition (items : List ContentItem) (target : Nat) :
    ((groupContentIntoSessions items target).map Session.items).flatten = items := by
  unfold groupContentIntoSessions
  by_cases h0 : items.length = 0
  · rw [if_pos h0]
    simp [List.length_eq_zero.mp h0]
  · rw [if_neg h0]
    have h := groupFold_flatten target items
      ([], { items := [], estimatedDuration := 0, priority := "medium" })
    set r := items.foldl (groupStep target)
      ([], { items := [], estimatedDuration := 0, priority := "medium" }) with hr
    simp only [List.map_nil, List.flatten_nil, List.nil_append] at h
    by_cases hc : r.2.items.length > 0
    · rw [if_pos hc]
      simpa [List.map_append, List.flatten_append] using h
    · rw [if_neg hc]
      have hnil : r.2.items = [] := List.length_eq_zero.mp (by omega)
      rw [hnil, List.append_nil] at h
      exact h

theorem sessionPriority_eq_fold (items : List ContentItem) :
    sessionPriority items = items.foldl bestStep "low" := rfl

theorem bestFold_mem : ∀ (l : List ContentItem) (b : String),
    l.foldl bestStep b = b ∨ ∃ x ∈ l, l.foldl bestStep b = x.priority := by
  intro l
  induction l with
  | nil => intro b; exact Or.inl rfl
  | cons a l ih =>
    intro b
    rw [List.foldl_cons]
    rcases ih (bestStep b a) with h | ⟨x, hx, hres⟩
    · by_cases hgt : getPriorityValue a.priority > getPriorityValue b
      · rw [show bestStep b a = a.priority from if_pos hgt] at h ⊢
        exact Or.inr ⟨a, List.mem_cons_self a l, h⟩
      · rw [show bestStep b a = b from if_neg hgt] at h ⊢
        exact Or.inl h
    · exact Or.inr ⟨x, List.mem_cons_of_mem a hx, hres⟩

theorem bestFold_ge_seed : ∀ (l : List ContentItem) (b : String),
    getPriorityValue b ≤ getPriorityValue (l.foldl bestStep b) := by
  intro l
  induction l with
  | nil => intro b; exact Nat.le_refl _
  | cons a l ih =>
    intro b
    rw [List.foldl_cons]
    refine Nat.le_trans ?_ (ih (bestStep b a))
    by_cases hgt : getPriorityValue a.priority > getPriorityValue b
    · rw [show bestStep b a = a.priority from if_pos hgt]; omega
    · rw [show bestStep b a = b from if_neg hgt]

theorem bestFold_ge_mem : ∀ (l : List ContentItem) (b : String), ∀ y ∈ l,
    getPriorityValue y.priority ≤ getPriorityValue (l.foldl bestStep b) := by
  intro l
  induction l with
  | nil => intro b y hy; cases hy
  | cons a l ih =>
    intro b y hy
    rw [List.foldl_cons]
    rcases List.mem_cons.mp hy with rfl | hyl
    · refine Nat.le_trans ?_ (bestFold_ge_seed l (bestStep b y))
      by_cases hgt : getPriorityValue y.priority > getPriorityValue b
      · rw [show bestStep b y = y.priority from if_pos hgt]
      · rw [show bestStep b y = b from if_neg hgt]; omega
    · exact ih (bestStep b a) y hyl

theorem priorityValue_eq_one (p : String) (h : getPriorityValue p = 1) : p = "low" := by
  unfold getPriorityValue at h
  split_ifs at h <;> simp_all

/-- C4 counterexample: a session whose only item has the label "optional"
(value 0) is produced with session priority "low", which is not the
priority of its highest-priority item. -/
theorem grouper_priority_cex :
    ¬ (∀ s ∈ groupContentIntoSessions [itemOptional] 25,
        ∃ x ∈ s.items, x.priority = s.priority
          ∧ ∀ y ∈ s.items, getPriorityValue y.priority ≤ getPriorityValue x.priority) := by
  decide

/-- C4 amended: for every produced session containing at least one item of
priority value at least 1 (that is, at least "low"), the session priority
equals the priority of its highest-priority item; sessions whose items all
have value 0 instead receive the seed label "low". -/
theorem grouper_priority_amended (items : List ContentItem) (target : Nat) (s : Session)
    (hs : s ∈ groupContentIntoSessions items target)
    (hsome : ∃ x ∈ s.items, 1 ≤ getPriorityValue x.priority) :
    ∃ x ∈ s.items, x.priority = s.priority
      ∧ ∀ y ∈ s.items, getPriorityValue y.priority ≤ getPriorityValue x.priority := by
  have hsp : s.priority = sessionPriority s.items := (grouper_sessions_spec items target s hs).2
  rw [hsp, sessionPriority_eq_fold]
  obtain ⟨x0, hx0, hx0v⟩ := hsome
  rcases bestFold_mem s.items "low" with hlow | ⟨m, hm, hmv⟩
  · rw [hlow]
    have hlow1 : getPriorityValue "low" = 1 := rfl
    have hgeall := bestFold_ge_mem s.items "low"
    rw [hlow] at hgeall
    have hx0le := hgeall x0 hx0
    have hx0eq : getPriorityValue x0.priority = 1 := by omega
    refine ⟨x0, hx0, priorityValue_eq_one _ hx0eq, ?_⟩
    intro y hy
    have := hgeall y hy
    omega
  · refine ⟨m, hm, hmv.symm, ?_⟩
    intro y hy
    have h1 := bestFold_ge_mem s.items "low" y hy
    rw [hmv] at h1
    exact h1

/-- Witness for the amended C4 at a concrete input: a session holding one
item labelled "high". -/
theorem grouper_priority_amended_witness :
    ∃ x ∈ (Session.mk [itemHigh] 15 "high").items, x.priority = (Session.mk [itemHigh] 15 "high").priority
      ∧ ∀ y ∈ (Session.mk [itemHigh] 15 "high").items,
          getPriorityValue y.priority ≤ getPriorityValue x.priority :=
  grouper_priority_amended [itemHigh] 25 _ (by decide) ⟨itemHigh, by decide, by decide⟩

/-- C2: the study mix can return 11 items, one more than the documented
maximum of 10. With averageScore below 60 the percentages are 70/15/15,
and for 10 totalItems they round to 7, 2 and 2, which sum to 11; with 7
weak, 2 strong and 2 new items available, all 11 are returned. -/
theorem studyMix_eleven_items :
    (generateBalancedStudyMix mix11Items (some mixPerf50)).length = 11 := by decide

/-- C6 counterexample: with averageScore equal to 0 (falsy in JS, so the
default 70 is substituted before the comparison with 60), the target
counts come from the default percentages 60/20/20, not from 70/15/15. -/
theorem mix_targets_zero_cex :
    ¬ (mixTargets mixTenItems (some mixPerf0)
        = (roundPct (min mixTenItems.length 10) 70,
           roundPct (min mixTenItems.length 10) 15,
           roundPct (min mixTenItems.length 10) 15)) := by decide

/-- C6 amended: for every items list and every performance record whose
averageScore is present, nonzero and below 60, the per-bucket targets are
computed from the percentages 70/15/15 by half-up rounding against
totalItems = min(length, 10), before shortfall redistribution. -/
theorem mix_targets_low_score (items : List ContentItem) (p : UserPerformance) (a : Nat)
    (ha : p.averageScore = some a) (h0 : 0 < a) (h60 : a < 60) :
    mixTargets items (some p)
      = (roundPct (min items.length 10) 70, roundPct (min items.length 10) 15,
         roundPct (min items.length 10) 15) := by
  have hj : jsOrNat p.averageScore 70 = a := by
    rw [ha]
    cases a with
    | zero => omega
    | succ n => rfl
  simp only [mixTargets, mixPercentages, hj]
  rw [if_pos h60]

/-- Witness for the amended C6 at averageScore 50 with ten items. -/
theorem mix_targets_low_score_witness :
    mixTargets mixTenItems (some mixPerf50)
      = (roundPct (min mixTenItems.length 10) 70, roundPct (min mixTenItems.length 10) 15,
         roundPct (min mixTenItems.length 10) 15) :=
  mix_targets_low_score mixTenItems mixPerf50 50 rfl (by decide) (by decide)

theorem map_eq_self_of_mem {α : Type} {f : α → α} :
    ∀ {l : List α}, (∀ x ∈ l, f x = x) → l.map f = l := by
  intro l
  induction l with
  | nil => intro _; rfl
  | cons a l ih =>
    intro h
    rw [List.map_cons, h a (List.mem_cons_self a l), ih (fun x hx => h x (List.mem_cons_of_mem a hx))]

/-- Enrichment only overwrites the two computed fields, so it is
pointwise idempotent. -/
theorem enrichItem_idem (w s : List String) (now : Int) (item : ContentItem) :
    enrichItem w s now (enrichItem w s now item) = enrichItem w s now item := rfl

theorem prioritizeContent_some (ud : UserData) (l : List ContentItem) (now : Int)
    (h0 : ¬ l.length = 0) :
    prioritizeContent l (some ud) now
      = (l.map (enrichItem (weakAreasOf ud.performance) (strongAreasOf ud.performance) now)).insertionSort
          scoreGe := by
  simp [prioritizeContent, h0]

/-- C8: with a fixed clock, prioritizeContent is idempotent: applied to
its own output with the same user data it returns the same list, hence
the same ordering, scores and tiers. -/
theorem prioritizeContent_idempotent (contentItems : List ContentItem)
    (userData : Option UserData) (now : Int) :
    prioritizeContent (prioritizeContent contentItems userData now) userData now
      = prioritizeContent contentItems userData now := by
  match userData with
  | none => rfl
  | some ud =>
    by_cases h0 : contentItems.length = 0
    · simp [prioritizeContent, h0]
    · rw [prioritizeContent_some ud contentItems now h0]
      have hlen :
          ¬ ((contentItems.map
              (enrichItem (weakAreasOf ud.performance) (strongAreasOf ud.performance) now)).insertionSort
                scoreGe).length = 0 := by
        rw [List.length_insertionSort, List.length_map]
        exact h0
      rw [prioritizeContent_some ud _ now hlen]
      have hmm : ∀ x ∈ (contentItems.map
            (enrichItem (weakAreasOf ud.performance) (strongAreasOf ud.performance) now)).insertionSort
              scoreGe,
          enrichItem (weakAreasOf ud.performance) (strongAreasOf ud.performance) now x = x := by
        intro x hx
        rw [List.mem_insertionSort] at hx
        obtain ⟨y, _, rfl⟩ := List.mem_map.mp hx
        exact enrichItem_idem _ _ now y
      rw [map_eq_self_of_mem hmm]
      exact List.Sorted.insertionSort_eq
        (List.sorted_insertionSort scoreGe
          (contentItems.map
            (enrichItem (weakAreasOf ud.performance) (strongAreasOf ud.performance) now)))

/-- With a mapped best period and non-empty content the scheduler
returns normally with one session per requested day. -/
theorem schedule_ok_shape (ud : UserData) (items : List ContentItem) (startDay : Int)
    (days : Nat) (h0 : ¬ items.length = 0) (p : Nat × Nat)
    (hp : getBestStudyHours ud.habits = some p) :
    ∃ l, generateAdaptiveSchedule (some ud) items startDay days = Except.ok l
      ∧ l.length = days := by
  simp [generateAdaptiveSchedule, h0, hp]

/-- C3 counterexample: a user whose highest-scored period is the
unmapped label "night" makes the scheduler throw, so no schedule of
length 7 is returned for a non-empty content list. -/
theorem schedule_night_cex :
    ¬ ∃ l : List StudySession,
        generateAdaptiveSchedule (some nightUser) [plainItem] 0 7 = Except.ok l
          ∧ l.length = 7 := by
  rintro ⟨l, hl, -⟩
  rw [show generateAdaptiveSchedule (some nightUser) [plainItem] 0 7
      = Except.error "TypeError: defaultHours lookup is undefined" from rfl] at hl
  exact Except.noConfusion hl

/-- C3 amended: whenever the computed best study period is one of the
three mapped windows, the scheduler returns normally with exactly
daysToSchedule sessions for non-empty content (so the empty array arises
exactly when daysToSchedule is 0), and empty content gives the empty
array. -/
theorem schedule_length_amended :
    (∀ (ud : UserData) (items : List ContentItem) (startDay : Int) (days : Nat),
        items ≠ [] → (getBestStudyHours ud.habits).isSome →
        ∃ l, generateAdaptiveSchedule (some ud) items startDay days = Except.ok l
          ∧ l.length = days)
    ∧ ∀ (ud : UserData) (startDay : Int) (days : Nat),
        generateAdaptiveSchedule (some ud) [] startDay days = Except.ok [] := by
  constructor
  · intro ud items startDay days hne hper
    have h0 : ¬ items.length = 0 := by simpa [List.length_eq_zero] using hne
    obtain ⟨p, hp⟩ := Option.isSome_iff_exists.mp hper
    exact schedule_ok_shape ud items startDay days h0 p hp
  · intro ud startDay days
    simp [generateAdaptiveSchedule]

/-- Witness for the amended C3: a user with no habit data defaults to the
evening window and gets a 7-day schedule from one item. -/
theorem schedule_length_amended_witness :
    ∃ l, generateAdaptiveSchedule (some basicUser) [plainItem] 0 7 = Except.ok l
      ∧ l.length = 7 :=
  schedule_length_amended.1 basicUser [plainItem] 0 7 (by decide) (by decide)

/-- C5 counterexample: the unmapped best period "dawn" makes the
scheduler raise the modelled TypeError instead of returning normally. -/
theorem schedule_dawn_cex :
    ¬ ∃ l : List StudySession,
        generateAdaptiveSchedule (some dawnUser) [plainItem] 0 1 = Except.ok l := by
  rintro ⟨l, hl⟩
  rw [show generateAdaptiveSchedule (some dawnUser) [plainItem] 0 1
      = Except.error "TypeError: defaultHours lookup is undefined" from rfl] at hl
  exact Except.noConfusion hl

/-- C5 amended: the scheduler never raises for any userData whose
computed best period is mapped (morning, afternoon or evening, including
every absent-field default); the unmapped-period lookup is the only
throwing site. -/
theorem schedule_no_crash_amended (ud : UserData) (items : List ContentItem) (startDay : Int)
    (days : Nat) (hper : (getBestStudyHours ud.habits).isSome) :
    ∃ l, generateAdaptiveSchedule (some ud) items startDay days = Except.ok l := by
  by_cases h0 : items.length = 0
  · exact ⟨[], by simp [generateAdaptiveSchedule, h0]⟩
  · obtain ⟨p, hp⟩ := Option.isSome_iff_exists.mp hper
    obtain ⟨l, hl, -⟩ := schedule_ok_shape ud items startDay days h0 p hp
    exact ⟨l, hl⟩

/-- Witness for the amended C5 at a morning user. -/
theorem schedule_no_crash_amended_witness :
    ∃ l, generateAdaptiveSchedule (some morningUser) [plainItem] 5 3 = Except.ok l :=
  schedule_no_crash_amended morningUser [plainItem] 5 3 (by decide)

theorem struggledStep_length (schedule : List StudySession) (fb : PerformanceFeedback)
    (now : CalDate) : (struggledStep schedule fb now).length = schedule.length := by
  unfold struggledStep
  by_cases h : (fb.struggledItems.getD []).length > 0 ∧ schedule.length > 0
  · rw [if_pos h]
    cases hf : schedule.findIdx? (fun s => decide (CalDate.lt now s.date)) with
    | none => rfl
    | some i => simp
  · rw [if_neg h]

/-- C9: with feedback averageScore over 85, the result keeps the session
at index 0 of the struggled-items-adjusted schedule unchanged and maps
every session at index above 0 to the same session with its duration
reduced by 5 and floored at 15; the scan is by array index and cumulative
with the struggled-items adjustment. -/
theorem adjust_high_score (schedule : List StudySession) (fb : PerformanceFeedback)
    (now : CalDate) (a : Int) (ha : fb.averageScore = some a) (h85 : 85 < a) :
    ∃ res, adjustScheduleBasedOnPerformance (some schedule) (some fb) now = some res
      ∧ res.length = schedule.length
      ∧ res.head? = (struggledStep schedule fb now).head?
      ∧ ∀ i, 0 < i →
          res[i]? = ((struggledStep schedule fb now)[i]?).map
            (fun s => { s with duration := max 15 (s.duration - 5) }) := by
  have ha0 : a ≠ 0 := by omega
  have hlen := struggledStep_length schedule fb now
  have hadj : adjustScheduleBasedOnPerformance (some schedule) (some fb) now
      = some (scoreStep fb (struggledStep schedule fb now)) := rfl
  cases hm : struggledStep schedule fb now with
  | nil =>
    refine ⟨[], ?_, ?_, ?_, ?_⟩
    · rw [hadj, hm]
      simp only [scoreStep, ha]
      rw [if_neg ha0, if_pos h85]
    · rw [hm] at hlen
      simpa using hlen
    · rfl
    · intro i hi
      simp
  | cons first rest =>
    refine ⟨first :: rest.map (fun s => { s with duration := max 15 (s.duration - 5) }), ?_, ?_, ?_, ?_⟩
    · rw [hadj, hm]
      simp only [scoreStep, ha]
      rw [if_neg ha0, if_pos h85]
    · rw [hm] at hlen
      simpa using hlen
    · rfl
    · intro i hi
      cases i with
      | zero => omega
      | succ j => simp

theorem maxLen_nil : maxLen [] = 0 := rfl

theorem maxLen_cons (g : List ContentItem) (gs : List (List ContentItem)) :
    maxLen (g :: gs) = max g.length (maxLen gs) := rfl

theorem maxLen_eq_zero_iff (gs : List (List ContentItem)) :
    maxLen gs = 0 ↔ ∀ g ∈ gs, g = [] := by
  induction gs with
  | nil => simp [maxLen_nil]
  | cons g gs ih =>
    rw [maxLen_cons]
    constructor
    · intro h g' hg'
      rcases List.mem_cons.mp hg' with rfl | hmem
      · exact List.length_eq_zero.mp (by omega)
      · exact ih.mp (by omega) g' hmem
    · intro h
      have h1 : g.length = 0 := by
        rw [h g (List.mem_cons_self g gs)]; rfl
      have h2 : maxLen gs = 0 := ih.mpr (fun g' hg' => h g' (List.mem_cons_of_mem g hg'))
      omega

theorem roundRobin_of_maxLen_zero {gs : List (List ContentItem)} (h : maxLen gs = 0) :
    roundRobin gs = [] := by
  rw [roundRobin, h]
  rfl

theorem mem_roundRobin {x : ContentItem} {gs : List (List ContentItem)}
    (hx : x ∈ roundRobin gs) : ∃ g ∈ gs, x ∈ g := by
  rw [roundRobin, List.mem_flatMap] at hx
  obtain ⟨i, -, hx⟩ := hx
  rw [List.mem_filterMap] at hx
  obtain ⟨g, hg, hgi⟩ := hx
  exact ⟨g, hg, List.getElem?_mem hgi⟩

theorem maxLen_dropOne (gs : List (List ContentItem)) :
    maxLen (gs.map (List.drop 1)) = maxLen gs - 1 := by
  induction gs with
  | nil => rfl
  | cons g gs ih =>
    rw [List.map_cons, maxLen_cons, maxLen_cons, ih, List.length_drop]
    omega

theorem roundRobin_unfold (gs : List (List ContentItem)) (h : ¬ maxLen gs = 0) :
    roundRobin gs
      = gs.filterMap List.head? ++ roundRobin (gs.map (List.drop 1)) := by
  obtain ⟨n, hn⟩ : ∃ n, maxLen gs = n + 1 := ⟨maxLen gs - 1, by omega⟩
  rw [roundRobin, roundRobin, maxLen_dropOne, hn]
  simp only [Nat.add_sub_cancel]
  rw [List.range_succ_eq_map, List.flatMap_cons, List.flatMap_map]
  have h0 : (fun g : List ContentItem => g[(0 : Nat)]?) = List.head? :=
    funext fun g => (List.head?_eq_getElem? g).symm
  have h1 : ∀ i : Nat, gs.filterMap (fun g => g[i + 1]?)
      = (gs.map (List.drop 1)).filterMap (fun g => g[i]?) := by
    intro i
    rw [List.filterMap_map]
    exact congrArg (fun f => List.filterMap f gs)
      (funext fun g => by
        show g[i + 1]? = (g.drop 1)[i]?
        rw [List.getElem?_drop, Nat.add_comm 1 i])
  congr 1
  · rw [h0]
  · exact congrArg (List.flatMap (List.range n)) (funext fun i => h1 i)

/-- Witness for C9 on a two-session demo schedule with score 90: the
second session drops from 17 to the 15-minute floor. -/
theorem adjust_high_score_witness :
    ∃ res, adjustScheduleBasedOnPerformance (some demoSchedule) (some feedback90) lateNow
        = some res
      ∧ res.length = demoSchedule.length
      ∧ res.head? = (struggledStep demoSchedule feedback90 lateNow).head?
      ∧ ∀ i, 0 < i →
          res[i]? = ((struggledStep demoSchedule feedback90 lateNow)[i]?).map
            (fun s => { s with duration := max 15 (s.duration - 5) }) :=
  adjust_high_score demoSchedule feedback90 lateNow 90 rfl (by decide)

theorem pairwise_adjacent {α : Type} {R : α → α → Prop} {l pre post : List α} {a b : α}
    (h : l.Pairwise R) (heq : l = pre ++ a :: b :: post) : R a b := by
  subst heq
  have h2 := (List.pairwise_append.mp h).2.1
  exact (List.pairwise_cons.mp h2).1 b (List.mem_cons_self b post)

theorem pairwise_mem_left {α : Type} {R : α → α → Prop} {l l₁ l₂ : List α} {x y : α}
    (h : l.Pairwise R) (heq : l = l₁ ++ x :: l₂) (hy : y ∈ l₁) : R y x := by
  subst heq
  exact (List.pairwise_append.mp h).2.2 y hy x (List.mem_cons_self x l₂)

/-- Distinct keys and homogeneous groups make the heads of the groups
pairwise subject-distinct. -/
theorem heads_pairwise (gps : List (String × List ContentItem))
    (hnd : (gps.map Prod.fst).Nodup) (hom : KeyedHomog gps) :
    (gps.filterMap (fun p => p.2.head?)).Pairwise
      (fun x y => jsSubject x ≠ jsSubject y) := by
  rw [List.pairwise_filterMap]
  have hnd2 : gps.Pairwise (fun p q => p.1 ≠ q.1) := List.pairwise_map.mp hnd
  refine hnd2.imp_of_mem ?_
  intro p q hp hq hne x hx y hy
  have hx2 : x ∈ p.2 := List.mem_of_mem_head? hx
  have hy2 : y ∈ q.2 := List.mem_of_mem_head? hy
  rw [hom p hp x hx2, hom q hq y hy2]
  exact hne

theorem sumLen_tail_le (gps : List (String × List ContentItem)) :
    ((tailGroups gps).map (fun p => p.2.length)).sum
      ≤ (gps.map (fun p => p.2.length)).sum := by
  induction gps with
  | nil => exact Nat.le_refl _
  | cons q gps ih =>
    simp only [tailGroups, List.map_cons, List.sum_cons, List.length_drop] at *
    omega

theorem sumLen_tail_lt :
    ∀ (gps : List (String × List ContentItem)) (p0 : String × List ContentItem),
      p0 ∈ gps → p0.2 ≠ [] →
      ((tailGroups gps).map (fun p => p.2.length)).sum
        < (gps.map (fun p => p.2.length)).sum := by
  intro gps
  induction gps with
  | nil => intro p0 h; cases h
  | cons q gps ih =>
    intro p0 hp0 hne
    rcases List.mem_cons.mp hp0 with rfl | hmem
    · have h1 := sumLen_tail_le gps
      have h2 : 0 < p0.2.length := List.length_pos.mpr hne
      simp only [tailGroups, List.map_cons, List.sum_cons, List.length_drop] at *
      omega
    · have h1 := ih p0 hmem hne
      simp only [tailGroups, List.map_cons, List.sum_cons, List.length_drop] at *
      omega

/-- Core property of the interleaving: whenever two adjacent output items
share a subject, every later output item also has that subject, provided
the groups have distinct keys and key-homogeneous contents. -/
theorem roundRobin_adjacent :
    ∀ (n : Nat) (gps : List (String × List ContentItem)),
      (gps.map (fun p => p.2.length)).sum ≤ n →
      (gps.map Prod.fst).Nodup →
      KeyedHomog gps →
      ∀ (pre post : List ContentItem) (a b : ContentItem),
        roundRobin (gps.map Prod.snd) = pre ++ a :: b :: post →
        jsSubject a = jsSubject b →
        ∀ c ∈ post, jsSubject c = jsSubject a := by
  intro n
  induction n with
  | zero =>
    intro gps hsum hnd hom pre post a b heq hab c hc
    exfalso
    have hml : maxLen (gps.map Prod.snd) = 0 := by
      rw [maxLen_eq_zero_iff]
      intro g hg
      obtain ⟨p, hp, rfl⟩ := List.mem_map.mp hg
      have hmem : p.2.length ∈ gps.map (fun p => p.2.length) :=
        List.mem_map_of_mem _ hp
      have hle : p.2.length ≤ (gps.map (fun p => p.2.length)).sum :=
        List.single_le_sum (fun x _ => Nat.zero_le x) _ hmem
      exact List.length_eq_zero.mp (by omega)
    rw [roundRobin_of_maxLen_zero hml] at heq
    simp at heq
  | succ n ih =>
    intro gps hsum hnd hom pre post a b heq hab
    by_cases hml : maxLen (gps.map Prod.snd) = 0
    · exfalso
      rw [roundRobin_of_maxLen_zero hml] at heq
      simp at heq
    · rw [roundRobin_unfold _ hml] at heq
      have htg : (gps.map Prod.snd).map (List.drop 1) = (tailGroups gps).map Prod.snd := by
        rw [List.map_map]
        simp only [tailGroups, List.map_map]
        rfl
      have hheads : (gps.map Prod.snd).filterMap List.head?
          = gps.filterMap (fun p => p.2.head?) := by
        rw [List.filterMap_map]
        rfl
      rw [htg, hheads] at heq
      have hkeys : (tailGroups gps).map Prod.fst = gps.map Prod.fst := by
        simp only [tailGroups, List.map_map]
        rfl
      have hnd2 : ((tailGroups gps).map Prod.fst).Nodup := by rw [hkeys]; exact hnd
      have hom2 : KeyedHomog (tailGroups gps) := by
        intro p hp x hx
        simp only [tailGroups] at hp
        obtain ⟨q, hq, rfl⟩ := List.mem_map.mp hp
        exact hom q hq x (List.mem_of_mem_drop hx)
      have hex : ∃ p ∈ gps, p.2 ≠ [] := by
        by_contra hall
        push_neg at hall
        apply hml
        rw [maxLen_eq_zero_iff]
        intro g hg
        obtain ⟨p, hp, rfl⟩ := List.mem_map.mp hg
        exact hall p hp
      have hsum2 : ((tailGroups gps).map (fun p => p.2.length)).sum ≤ n := by
        obtain ⟨p0, hp0, hp0ne⟩ := hex
        have := sumLen_tail_lt gps p0 hp0 hp0ne
        omega
      rcases List.append_eq_append_iff.mp heq with ⟨t, ht1, ht2⟩ | ⟨t, ht1, ht2⟩
      · exact ih (tailGroups gps) hsum2 hnd2 hom2 t post a b ht2 hab
      · cases t with
        | nil =>
          simp only [List.nil_append] at ht2
          exact ih (tailGroups gps) hsum2 hnd2 hom2 [] post a b (by simpa using ht2.symm) hab
        | cons a₁ t' =>
          cases t' with
          | cons b₁ t₂ =>
            exfalso
            simp only [List.cons_append] at ht2
            injection ht2 with h1 hrest
            injection hrest with h2 hpost
            have hne := pairwise_adjacent (heads_pairwise gps hnd hom) ht1
            rw [← h1, ← h2] at hne
            exact hne hab
          | nil =>
            simp only [List.cons_append, List.nil_append] at ht2
            injection ht2 with hta htrec
            subst hta
            rw [List.filterMap_eq_append_iff] at ht1
            obtain ⟨l₁, l₂, hgps, hfm1, hfm2⟩ := ht1
            rw [List.filterMap_eq_cons_iff] at hfm2
            obtain ⟨l₂₁, pa, l₂₂, hl₂, hl₂₁none, hpa, hl₂₂⟩ := hfm2
            have hP₂empty : ∀ q ∈ l₂₂, q.2 = [] := by
              intro q hq
              exact List.head?_eq_none_iff.mp (List.filterMap_eq_nil_iff.mp hl₂₂ q hq)
            have hsplit1 : gps = (l₁ ++ l₂₁) ++ pa :: l₂₂ := by
              rw [hgps, hl₂, List.append_assoc]
            have hpa_mem : pa ∈ gps := by
              rw [hsplit1]
              exact List.mem_append_right _ (List.mem_cons_self _ _)
            have ha_mem : a ∈ pa.2 :=
              List.mem_of_mem_head? (show a ∈ pa.2.head? by rw [hpa]; rfl)
            have hsubj_a : jsSubject a = pa.1 := hom pa hpa_mem a ha_mem
            have hrec₀ : roundRobin ((tailGroups gps).map Prod.snd) = b :: post := htrec.symm
            by_cases hml2 : maxLen ((tailGroups gps).map Prod.snd) = 0
            · rw [roundRobin_of_maxLen_zero hml2] at hrec₀
              simp at hrec₀
            · have hrec₁ := hrec₀
              rw [roundRobin_unfold _ hml2] at hrec₁
              have hheads2 : ((tailGroups gps).map Prod.snd).filterMap List.head?
                  = (tailGroups gps).filterMap (fun p => p.2.head?) := by
                rw [List.filterMap_map]
                rfl
              rw [hheads2] at hrec₁
              cases hh2 : (tailGroups gps).filterMap (fun p => p.2.head?) with
              | nil =>
                exfalso
                apply hml2
                rw [maxLen_eq_zero_iff]
                intro g hg
                obtain ⟨p, hp, rfl⟩ := List.mem_map.mp hg
                have hp2 : p ∈ tailGroups gps := hp
                exact List.head?_eq_none_iff.mp
                  (List.filterMap_eq_nil_iff.mp hh2 p hp2)
              | cons b₂ h₂ =>
                rw [hh2] at hrec₁
                have hb₂ : b₂ = b := by
                  have h3 := congrArg List.head? hrec₁
                  simpa using h3
                rw [List.filterMap_eq_cons_iff] at hh2
                obtain ⟨m₁, qb, m₂, htails, hm₁none, hqb, hm₂⟩ := hh2
                rw [hb₂] at hqb
                simp only [tailGroups] at htails
                rw [List.map_eq_append_iff] at htails
                obtain ⟨g₁, g₂, hgps2, hg₁, hg₂⟩ := htails
                rw [List.map_eq_cons_iff] at hg₂
                obtain ⟨gb, g₂tail, hg₂eq, hgbtf, hg₂tail⟩ := hg₂
                have hsplit2 : gps = g₁ ++ gb :: g₂tail := by rw [hgps2, hg₂eq]
                have hqb2 : qb.2 = gb.2.drop 1 := by rw [← hgbtf]
                have hb_mem : b ∈ gb.2 :=
                  List.mem_of_mem_drop
                    (List.mem_of_mem_head?
                      (show b ∈ (gb.2.drop 1).head? by rw [← hqb2, hqb]; rfl))
                have hgb_mem : gb ∈ gps := by
                  rw [hsplit2]
                  exact List.mem_append_right _ (List.mem_cons_self _ _)
                have hsubj_b : jsSubject b = gb.1 := hom gb hgb_mem b hb_mem
                have hkey : pa.1 = gb.1 := by rw [← hsubj_a, ← hsubj_b]; exact hab
                have hg₁short : ∀ g ∈ g₁, g.2.drop 1 = [] := by
                  intro g hg
                  have h1 : (g.1, g.2.drop 1) ∈ m₁ := by
                    rw [← hg₁]
                    exact List.mem_map_of_mem _ hg
                  exact List.head?_eq_none_iff.mp (hm₁none _ h1)
                have hcomb : (l₁ ++ l₂₁) ++ pa :: l₂₂ = g₁ ++ gb :: g₂tail := by
                  rw [← hsplit1, ← hsplit2]
                have halign : pa = gb ∧ l₁ ++ l₂₁ = g₁ := by
                  rcases List.append_eq_append_iff.mp hcomb with ⟨t₃, ht₃1, ht₃2⟩ | ⟨t₃, ht₃1, ht₃2⟩
                  · cases t₃ with
                    | nil =>
                      simp only [List.nil_append] at ht₃2
                      injection ht₃2 with h1 _
                      simp only [List.append_nil] at ht₃1
                      exact ⟨h1, ht₃1.symm⟩
                    | cons x t₃' =>
                      exfalso
                      simp only [List.cons_append] at ht₃2
                      injection ht₃2 with _ h2
                      have hin : gb ∈ l₂₂ := by
                        rw [h2]
                        exact List.mem_append_right _ (List.mem_cons_self _ _)
                      have hempty := hP₂empty gb hin
                      rw [hempty] at hb_mem
                      cases hb_mem
                  · cases t₃ with
                    | nil =>
                      simp only [List.nil_append] at ht₃2
                      injection ht₃2 with h1 _
                      simp only [List.append_nil] at ht₃1
                      exact ⟨h1.symm, ht₃1⟩
                    | cons x t₃' =>
                      exfalso
                      simp only [List.cons_append] at ht₃2
                      injection ht₃2 with h1 h2
                      have hin : gb ∈ l₁ ++ l₂₁ := by
                        rw [ht₃1, ← h1]
                        exact List.mem_append_right _ (List.mem_cons_self _ _)
                      have hpw : gps.Pairwise (fun p q => p.1 ≠ q.1) :=
                        List.pairwise_map.mp hnd
                      exact (pairwise_mem_left hpw hsplit1 hin) hkey.symm
                obtain ⟨hpagb, hP₁g₁⟩ := halign
                intro c hc
                have hc_rec : c ∈ roundRobin ((tailGroups gps).map Prod.snd) := by
                  rw [hrec₀]
                  exact List.mem_cons_of_mem b hc
                obtain ⟨g, hg, hcg⟩ := mem_roundRobin hc_rec
                obtain ⟨p, hp, rfl⟩ := List.mem_map.mp hg
                have hp' : p ∈ gps.map (fun q => (q.1, q.2.drop 1)) := hp
                obtain ⟨q, hq, rfl⟩ := List.mem_map.mp hp'
                rw [hsplit1] at hq
                rcases List.mem_append.mp hq with hq1 | hq2
                · exfalso
                  have hd := hg₁short q (hP₁g₁ ▸ hq1)
                  rw [hd] at hcg
                  cases hcg
                · rcases List.mem_cons.mp hq2 with hq_eq | hq3
                  · rw [hsubj_a]
                    rw [hq_eq] at hcg
                    exact hom pa hpa_mem c (List.mem_of_mem_drop hcg)
                  · exfalso
                    have hd := hP₂empty q hq3
                    rw [hd] at hcg
                    simp at hcg

theorem addToGroups_fst (gs : List (String × List ContentItem)) (k : String)
    (it : ContentItem) :
    (addToGroups gs k it).map Prod.fst
      = if k ∈ gs.map Prod.fst then gs.map Prod.fst else gs.map Prod.fst ++ [k] := by
  induction gs with
  | nil => simp [addToGroups]
  | cons g rest ih =>
    simp only [addToGroups]
    by_cases hk : g.1 = k
    · rw [if_pos hk]
      simp [hk]
    · rw [if_neg hk]
      simp only [List.map_cons, ih]
      by_cases hmem : k ∈ rest.map Prod.fst
      · rw [if_pos hmem, if_pos (List.mem_cons_of_mem g.1 hmem)]
      · rw [if_neg hmem, if_neg ?_, List.cons_append]
        intro hcon
        rcases List.mem_cons.mp hcon with h1 | h2
        · exact hk h1.symm
        · exact hmem h2

theorem addToGroups_nodup (gs : List (String × List ContentItem)) (k : String)
    (it : ContentItem) (h : (gs.map Prod.fst).Nodup) :
    ((addToGroups gs k it).map Prod.fst).Nodup := by
  rw [addToGroups_fst]
  by_cases hmem : k ∈ gs.map Prod.fst
  · rw [if_pos hmem]; exact h
  · rw [if_neg hmem]
    rw [List.nodup_append]
    refine ⟨h, List.nodup_singleton k, ?_⟩
    intro x hx hxk
    rw [List.mem_singleton] at hxk
    subst hxk
    exact hmem hx

theorem addToGroups_homog :
    ∀ (gs : List (String × List ContentItem)) (k : String) (it : ContentItem),
      KeyedHomog gs → jsSubject it = k → KeyedHomog (addToGroups gs k it) := by
  intro gs
  induction gs with
  | nil =>
    intro k it _ hit p hp x hx
    simp only [addToGroups, List.mem_singleton] at hp
    subst hp
    simp only [List.mem_singleton] at hx
    subst hx
    exact hit
  | cons g rest ih =>
    intro k it hom hit p hp x hx
    simp only [addToGroups] at hp
    by_cases hk : g.1 = k
    · rw [if_pos hk] at hp
      rcases List.mem_cons.mp hp with hpg | hprest
      · subst hpg
        rcases List.mem_append.mp hx with h1 | h2
        · exact hom g (List.mem_cons_self g rest) x h1
        · rw [List.mem_singleton] at h2
          subst h2
          exact hit.trans hk.symm
      · exact hom p (List.mem_cons_of_mem g hprest) x hx
    · rw [if_neg hk] at hp
      rcases List.mem_cons.mp hp with hpg | hprest
      · rw [hpg] at hx ⊢
        exact hom g (List.mem_cons_self g rest) x hx
      · exact ih k it (fun q hq y hy => hom q (List.mem_cons_of_mem g hq) y hy) hit
          p hprest x hx

theorem groupBySubject_inv (items : List ContentItem) :
    ((groupBySubject items).map Prod.fst).Nodup ∧ KeyedHomog (groupBySubject items) := by
  suffices h : ∀ gs, (gs.map Prod.fst).Nodup → KeyedHomog gs →
      (((items.foldl (fun gs it => addToGroups gs (jsSubject it) it) gs).map Prod.fst).Nodup
        ∧ KeyedHomog (items.foldl (fun gs it => addToGroups gs (jsSubject it) it) gs)) by
    exact h [] (by simp) (fun p hp => absurd hp (List.not_mem_nil p))
  induction items with
  | nil => intro gs h1 h2; exact ⟨h1, h2⟩
  | cons it rest ih =>
    intro gs h1 h2
    rw [List.foldl_cons]
    exact ih _ (addToGroups_nodup gs (jsSubject it) it h1)
      (addToGroups_homog gs (jsSubject it) it h2 rfl)

/-- C7: the sequencer never emits two consecutive items of the same
subject (defaulted to "general") unless, from the second of the two
onwards, every remaining emitted item has that same subject, that is,
no other subject still has items left to emit. -/
theorem recommendContentSequence_spacing (contentItems pre post : List ContentItem)
    (a b : ContentItem)
    (heq : recommendContentSequence contentItems = pre ++ a :: b :: post)
    (hab : jsSubject a = jsSubject b) :
    ∀ c ∈ post, jsSubject c = jsSubject a := by
  intro c hc
  unfold recommendContentSequence at heq
  by_cases h0 : contentItems.length = 0
  · rw [if_pos h0] at heq
    exact absurd heq.symm (by simp)
  · rw [if_neg h0] at heq
    obtain ⟨hnd, hom⟩ := groupBySubject_inv contentItems
    have hnd2 : (((groupBySubject contentItems).map
        (fun p => (p.1, p.2.insertionSort seqLe))).map Prod.fst).Nodup := by
      rw [List.map_map]
      exact hnd
    have hom2 : KeyedHomog ((groupBySubject contentItems).map
        (fun p => (p.1, p.2.insertionSort seqLe))) := by
      intro p hp x hx
      obtain ⟨q, hq, rfl⟩ := List.mem_map.mp hp
      exact hom q hq x ((List.mem_insertionSort seqLe).mp hx)
    exact roundRobin_adjacent
      ((((groupBySubject contentItems).map
          (fun p => (p.1, p.2.insertionSort seqLe))).map (fun p => p.2.length)).sum)
      ((groupBySubject contentItems).map (fun p => (p.1, p.2.insertionSort seqLe)))
      (Nat.le_refl _) hnd2 hom2 pre post a b heq hab c hc

/-- Witness for C7: three items of the single subject "m" are emitted in
order, and after the adjacent pair the remaining item has the same
subject. -/
theorem recommendContentSequence_spacing_witness :
    jsSubject seqItemC = jsSubject seqItemA :=
  recommendContentSequence_spacing [seqItemA, seqItemB, seqItemC] [] [seqItemC]
    seqItemA seqItemB (by decide) rfl seqItemC (by decide)
